import Mathlib

/-!
# Fraud-Aware Digital Wallet — verification of the fraud engine specification

Shallow embedding of the Fraud Scoring & Account-Protection Engine of the
`Fraud_Aware_DigitalWallet` repository.  The repository ships the MySQL schema
(`backend/database/schema.sql`), the API client (`frontend/src/lib/api.ts`) and
the UI pages; the FastAPI backend implementing the engine itself is not part of
the source tree, so the engine definitions below are modelled from the
specification, while the client-side behaviour (confirmation modal, countdown
timer, freeze countdown display) is translated from the frontend source.

Amounts are rationals (the schema stores DECIMAL(15,2)); times are integers
(epoch milliseconds / minutes); hours are naturals 0–23.
-/

namespace FraudWallet

/-- Risk level of a scored transaction (`transactions.risk_level` enum
in `schema.sql`: 'low' | 'medium' | 'high'). -/
inductive RiskLevel where
  | low
  | medium
  | high
deriving DecidableEq, Repr

/-- Transaction status (`transactions.status` enum in `schema.sql`:
'pending' | 'completed' | 'blocked' | 'cancelled'). -/
inductive TxnStatus where
  | pending
  | completed
  | blocked
  | cancelled
deriving DecidableEq, Repr

/-- Wallet status (`users.wallet_status` enum in `schema.sql`:
'active' | 'frozen'). -/
inductive WalletStatus where
  | active
  | frozen
deriving DecidableEq, Repr

/-- Modelled from the spec: identifiers of the scored fraud rules
(§4.1 rule table).  Hard velocity is not a scored rule: it bypasses
scoring entirely, so it has no `RuleId`. -/
inductive RuleId where
  | exceedsLimit
  | softVelocity
  | impossibleTravel
  | highAmountVsBaseline
  | newDevice
  | newLocation
  | unusualHour
deriving DecidableEq, Repr

/-- Behavioral baseline aggregates (`behavior_baselines` table in
`schema.sql`: `avg_transaction_amount`, `max_historical_amount`,
`transaction_count`). -/
structure Baseline where
  avg : ℚ
  maxHist : ℚ
  count : ℕ
deriving DecidableEq, Repr

/-- The empty baseline of a brand-new account (`schema.sql` defaults:
`avg_transaction_amount` 0, `max_historical_amount` 0,
`transaction_count` 0). -/
def emptyBaseline : Baseline := { avg := 0, maxHist := 0, count := 0 }

/-- A transaction request as submitted by the caller
(`transactionsAPI.send` payload in `api.ts`, plus the evaluation-time
context of hour and timestamp). -/
structure Request where
  id : ℕ
  amount : ℚ
  device : String
  location : String
  hour : ℕ
  timestamp : ℤ
deriving Repr

/-- Modelled from the spec: the account context consumed by the evaluator
(§6 `loadAccountContext` + `countRecentTransactions` +
`lastTransactionLocation`); thresholds come from the `users` table of
`schema.sql` (`max_txn_amount`, `max_txns_10min`, `allowed_start_hour`,
`allowed_end_hour`).  `baseline` is `none` for a brand-new account with
no baseline row.  `distance`/`speedBound` are the external travel
tunables of §9. -/
structure Context where
  maxTxnAmount : ℚ
  hardThreshold : ℕ
  softThreshold : ℕ
  recentCount : ℕ
  knownDevices : List String
  knownLocations : List String
  allowedStartHour : ℕ
  allowedEndHour : ℕ
  baseline : Option Baseline
  lastLocation : Option (String × ℤ)
  distance : String → String → ℚ
  speedBound : ℚ

/-- The evaluator's verdict (§4.1 contract:
`Verdict{score, level, factors, requiresConfirmation, hardBlock}`;
the persisted columns are `anomaly_score`, `risk_level`, `risk_factors`,
`requires_confirmation` of `schema.sql`). -/
structure Verdict where
  score : ℕ
  level : RiskLevel
  factors : List RuleId
  requiresConfirmation : Bool
  hardBlock : Bool
deriving DecidableEq, Repr

/-- Modelled from the spec: fixed rule weights of the §4.1 rule table. -/
def weight : RuleId → ℕ
  | .exceedsLimit => 80
  | .softVelocity => 85
  | .impossibleTravel => 90
  | .highAmountVsBaseline => 40
  | .newDevice => 25
  | .newLocation => 25
  | .unusualHour => 20

/-- Modelled from the spec: which rules are individually marked
confirmation-required (§4.1: exceeds-limit, soft-velocity,
impossible-travel). -/
def confRequired : RuleId → Bool
  | .exceedsLimit => true
  | .softVelocity => true
  | .impossibleTravel => true
  | _ => false

/-- Modelled from the spec: the firing condition of each scored rule
(§4.1 rule table).  A missing baseline means the high-amount rule does
not fire (§4.1 failure policy). -/
def fires (r : Request) (c : Context) : RuleId → Bool
  | .exceedsLimit => decide (c.maxTxnAmount < r.amount)
  | .softVelocity => decide (c.softThreshold ≤ c.recentCount)
  | .impossibleTravel =>
      match c.lastLocation with
      | none => false
      | some (loc, t) =>
          decide (loc ≠ r.location) &&
          decide (c.speedBound * ((r.timestamp - t : ℤ) : ℚ) < c.distance loc r.location)
  | .highAmountVsBaseline =>
      match c.baseline with
      | none => false
      | some b => decide (3 * b.avg < r.amount)
  | .newDevice => !(c.knownDevices.contains r.device)
  | .newLocation => !(c.knownLocations.contains r.location)
  | .unusualHour => !(decide (c.allowedStartHour ≤ r.hour) && decide (r.hour < c.allowedEndHour))

/-- The closed list of scored rules (§9: a closed rule-evaluator list). -/
def allRules : List RuleId :=
  [.exceedsLimit, .softVelocity, .impossibleTravel, .highAmountVsBaseline,
   .newDevice, .newLocation, .unusualHour]

/-- The rules that fire for a given request and context; evaluated
unconditionally and in full so the factor list is complete (§4.1). -/
def firedRules (r : Request) (c : Context) : List RuleId :=
  allRules.filter (fires r c)

/-- Sum of the weights of a list of rules. -/
def sumWeights (l : List RuleId) : ℕ := (l.map weight).sum

/-- Modelled from the spec: risk level as a function of the clamped
score (§4.1: low if ≤ 30, medium if 31–60, high if > 60). -/
def riskLevel (s : ℕ) : RiskLevel :=
  if s ≤ 30 then .low else if s ≤ 60 then .medium else .high

/-- Modelled from the spec: the verdict returned on a hard block (§4.1:
bypasses scoring; the transaction is blocked outright, no score is
computed — the verdict carries the maximal score and no factor list). -/
def hardBlockVerdict : Verdict :=
  { score := 100, level := .high, factors := [],
    requiresConfirmation := false, hardBlock := true }

/-- Modelled from the spec: the risk scoring evaluator (§4.1).  Hard
velocity is checked first and short-circuits every other rule; otherwise
all rules are evaluated, weights summed and clamped to 100, and
`requiresConfirmation` is score > 60 or any confirmation-required rule
fired. -/
def evaluate (r : Request) (c : Context) : Verdict :=
  if c.hardThreshold ≤ c.recentCount then hardBlockVerdict
  else
    let fired := firedRules r c
    let score := min (sumWeights fired) 100
    { score := score
      level := riskLevel score
      factors := fired
      requiresConfirmation := decide (60 < score) || fired.any confRequired
      hardBlock := false }

/-- Modelled from the spec: the outer evaluation interface when account
context must first be loaded (§4.1 failure policy / §7
`ContextUnavailable`): a context-fetch failure fails closed to a hard
block, never approving. -/
def evaluateLoaded (r : Request) : Option Context → Verdict
  | none => hardBlockVerdict
  | some c => evaluate r c

/-- Account state managed by the Freeze State Machine (`users.balance`,
`users.wallet_status`, `users.freeze_until` in `schema.sql`). -/
structure AccountState where
  balance : ℚ
  status : WalletStatus
  freezeUntil : Option ℤ
deriving DecidableEq, Repr

/-- Modelled from the spec: `freeze(duration, reason)` of the Account
Freeze State Machine (§4.3): moves to `Frozen(now+duration)`,
overwriting any shorter existing freeze but never shortening a longer
one already in force. -/
def freeze (now dur : ℤ) (a : AccountState) : AccountState :=
  { a with
    status := .frozen
    freezeUntil := some (match a.freezeUntil with
      | none => now + dur
      | some u => max u (now + dur)) }

/-- Modelled from the spec: manual `unfreeze()` (§4.3): forces `Active`
regardless of `freeze_until`. -/
def unfreeze (a : AccountState) : AccountState :=
  { a with status := .active, freezeUntil := none }

/-- Modelled from the spec: the Behavior Baseline Updater's incremental
step (§4.4): `avg' = avg + (amount - avg)/(count+1)`,
`maxHist' = max maxHist amount`, `count' = count + 1`. -/
def updateBaseline (b : Baseline) (amount : ℚ) : Baseline :=
  { avg := b.avg + (amount - b.avg) / (b.count + 1)
    maxHist := max b.maxHist amount
    count := b.count + 1 }

/-- A persisted transaction record, reduced to the fields the state
machine reads and writes (`transactions.amount` / `transactions.status`
in `schema.sql`). -/
structure Txn where
  amount : ℚ
  status : TxnStatus
deriving DecidableEq, Repr

/-- Engine-side persistent state: one account, its baseline, and the
transaction store keyed by id. -/
structure Sys where
  account : AccountState
  baseline : Baseline
  txns : ℕ → Option Txn

/-- Store a transaction record under an id. -/
def putTxn (f : ℕ → Option Txn) (id : ℕ) (t : Txn) : ℕ → Option Txn :=
  fun j => if j = id then some t else f j

/-- Result of `confirm`/`onTimeout` (§6: `NotFound`, or the — possibly
pre-existing terminal — transaction record). -/
inductive ConfirmResult where
  | notFound
  | resolved (t : Txn)
deriving DecidableEq, Repr

/-- Modelled from the spec: `confirm(transactionId, confirmed)` of the
Confirmation State Machine (§4.2/§6/§7): on a pending transaction,
`confirmed=true` completes it (balance debited, baseline folded in) and
`confirmed=false` cancels it with no balance change; on an
already-terminal transaction it is an idempotent no-op returning the
existing terminal record. -/
def confirm (s : Sys) (id : ℕ) (b : Bool) : ConfirmResult × Sys :=
  match s.txns id with
  | none => (.notFound, s)
  | some t =>
    match t.status with
    | .pending =>
        if b then
          let t' : Txn := { t with status := .completed }
          (.resolved t',
           { account := { s.account with balance := s.account.balance - t.amount }
             baseline := updateBaseline s.baseline t.amount
             txns := putTxn s.txns id t' })
        else
          let t' : Txn := { t with status := .cancelled }
          (.resolved t', { s with txns := putTxn s.txns id t' })
    | _ => (.resolved t, s)

/-- Modelled from the spec: `onTimeout(transactionId)` (§4.2/§6): timer
expiry on a pending transaction blocks it and auto-freezes the account
for the configured freeze duration; on an already-terminal transaction
it is an idempotent no-op. -/
def onTimeout (now freezeDur : ℤ) (s : Sys) (id : ℕ) : ConfirmResult × Sys :=
  match s.txns id with
  | none => (.notFound, s)
  | some t =>
    match t.status with
    | .pending =>
        let t' : Txn := { t with status := .blocked }
        (.resolved t',
         { s with account := freeze now freezeDur s.account
                  txns := putTxn s.txns id t' })
    | _ => (.resolved t, s)

/-- Modelled from the spec: `submit(transactionRequest)` (§4.2/§6): the
verdict is applied — hard block freezes the account and blocks the
transaction with no balance or baseline change; a confirmation-required
verdict leaves the transaction pending; otherwise the transaction
completes immediately, debiting the balance and folding the amount into
the baseline. -/
def submit (now freezeDur : ℤ) (r : Request) (c : Context) (s : Sys) :
    (Txn × Verdict) × Sys :=
  let v := evaluate r c
  if v.hardBlock then
    let t : Txn := { amount := r.amount, status := .blocked }
    ((t, v), { s with account := freeze now freezeDur s.account
                      txns := putTxn s.txns r.id t })
  else if v.requiresConfirmation then
    let t : Txn := { amount := r.amount, status := .pending }
    ((t, v), { s with txns := putTxn s.txns r.id t })
  else
    let t : Txn := { amount := r.amount, status := .completed }
    ((t, v), { account := { s.account with balance := s.account.balance - r.amount }
               baseline := updateBaseline s.baseline r.amount
               txns := putTxn s.txns r.id t })

/-- Modelled from the spec: `evaluate` run against an ambient engine
state it does not touch (§4.1: pure, deterministic, no side effects). -/
def evaluateRun (r : Request) (c : Context) (s : Sys) : Verdict × Sys :=
  (evaluate r c, s)

/-! ## Client-side code, translated from the frontend source -/

/-- The fraud-analysis payload the client receives
(`FraudAnalysis` interface in `api.ts`). -/
structure FraudAnalysisR where
  anomaly_score : ℕ
  requires_confirmation : Bool
deriving DecidableEq, Repr

/-- Client component state of the transactions page
(`transactions/page.tsx`: `showConfirmModal`, `countdown`,
`pendingTransaction`, `transactionComplete`).  `hasPending` models
`pendingTransaction !== null`. -/
structure ClientState where
  showConfirmModal : Bool
  countdown : ℕ
  hasPending : Bool
  transactionComplete : Bool
deriving DecidableEq, Repr

/-- The success branch of `handleSubmit` in `transactions/page.tsx`
(lines 74–86): if the analysis requires confirmation, the pending
transaction is kept, the countdown is reset to 60 and the confirmation
modal is shown; otherwise the transaction is reported complete. -/
def handleSubmitClient (fa : FraudAnalysisR) (s : ClientState) : ClientState :=
  if fa.requires_confirmation then
    { showConfirmModal := true, countdown := 60, hasPending := true,
      transactionComplete := false }
  else
    { showConfirmModal := false, countdown := s.countdown, hasPending := false,
      transactionComplete := true }

/-- One run of the countdown effect in `transactions/page.tsx` (lines
33–43): while the modal is shown and the countdown is positive, one
second elapsing decrements it; once the countdown is 0 with a pending
transaction, `handleTimeout` fires the timeout endpoint.  The returned
boolean records whether the timeout endpoint was invoked. -/
def clientTick (s : ClientState) : ClientState × Bool :=
  if s.showConfirmModal && decide (0 < s.countdown) then
    ({ s with countdown := s.countdown - 1 }, false)
  else if decide (s.countdown = 0) && s.hasPending then
    (s, true)
  else
    (s, false)

/-- Iterate the countdown effect `n` times (state component only). -/
def iterTick : ℕ → ClientState → ClientState
  | 0, s => s
  | n + 1, s => iterTick n (clientTick s).1

/-- `getTimeRemaining` of `balance/page.tsx` (lines 86–93): `null` when
there is no freeze expiry; otherwise the number of minutes until the
expiry, rounded up, floored at 0.  Times are epoch milliseconds. -/
def getTimeRemaining (freezeUntil : Option ℤ) (now : ℤ) : Option ℤ :=
  match freezeUntil with
  | none => none
  | some u =>
      if 0 < ⌈((u - now : ℤ) : ℚ) / 60000⌉ then some ⌈((u - now : ℤ) : ℚ) / 60000⌉
      else some 0

/-! ## Example values (used to witness the claim theorems on concrete inputs) -/

/-- The §8 scenario request: amount 15000 from a known device/location
inside allowed hours. -/
def exReq : Request :=
  { id := 1, amount := 15000, device := "d0", location := "SF", hour := 12,
    timestamp := 0 }

/-- The §8 scenario context: `max_txn_amount` 10000, baseline average
500, known device `d0` and location `SF`, default thresholds. -/
def exCtx : Context :=
  { maxTxnAmount := 10000, hardThreshold := 5, softThreshold := 3,
    recentCount := 0, knownDevices := ["d0"], knownLocations := ["SF"],
    allowedStartHour := 6, allowedEndHour := 23,
    baseline := some { avg := 500, maxHist := 2000, count := 10 },
    lastLocation := none, distance := fun _ _ => 0, speedBound := 500 }

/-- A context at the hard velocity threshold (5 recent transactions,
threshold 5) with no baseline. -/
def exCtxHard : Context :=
  { maxTxnAmount := 10000, hardThreshold := 5, softThreshold := 3,
    recentCount := 5, knownDevices := [], knownLocations := [],
    allowedStartHour := 6, allowedEndHour := 23, baseline := none,
    lastLocation := none, distance := fun _ _ => 0, speedBound := 500 }

/-- An engine state holding one already-blocked transaction under id 7
and one pending transaction under id 3. -/
def exSys : Sys :=
  { account := { balance := 1000, status := .active, freezeUntil := none }
    baseline := emptyBaseline
    txns := fun j =>
      if j = 7 then some { amount := 50, status := .blocked }
      else if j = 3 then some { amount := 20, status := .pending }
      else none }

/-- An idle client component state. -/
def exClient : ClientState :=
  { showConfirmModal := false, countdown := 60, hasPending := false,
    transactionComplete := false }

/-! ## Helper lemmas -/

theorem riskLevel_cases (s : ℕ) :
    (riskLevel s = .low ↔ s ≤ 30) ∧
    (riskLevel s = .medium ↔ 31 ≤ s ∧ s ≤ 60) ∧
    (riskLevel s = .high ↔ 60 < s) := by
  unfold riskLevel
  split_ifs with h1 h2 <;> refine ⟨?_, ?_, ?_⟩ <;> simp <;> omega

theorem evaluate_hard (r : Request) (c : Context)
    (h : c.hardThreshold ≤ c.recentCount) : evaluate r c = hardBlockVerdict := by
  simp [evaluate, h]

theorem evaluate_not_hard (r : Request) (c : Context)
    (h : c.recentCount < c.hardThreshold) :
    evaluate r c =
      { score := min (sumWeights (firedRules r c)) 100
        level := riskLevel (min (sumWeights (firedRules r c)) 100)
        factors := firedRules r c
        requiresConfirmation :=
          decide (60 < min (sumWeights (firedRules r c)) 100) ||
            (firedRules r c).any confRequired
        hardBlock := false } := by
  simp [evaluate, Nat.not_le.mpr h]

theorem iterTick_run (k n : ℕ) (hk : k ≤ n) (c : Bool) :
    iterTick k { showConfirmModal := true, countdown := n, hasPending := true,
                 transactionComplete := c } =
      { showConfirmModal := true, countdown := n - k, hasPending := true,
        transactionComplete := c } := by
  induction k generalizing n with
  | zero => simp [iterTick]
  | succ k ih =>
      have hn : 0 < n := by omega
      have hstep :
          (clientTick
            { showConfirmModal := true, countdown := n, hasPending := true,
              transactionComplete := c }).1 =
          { showConfirmModal := true, countdown := n - 1, hasPending := true,
            transactionComplete := c } := by
        simp [clientTick, hn]
      rw [iterTick, hstep, ih (n - 1) (by omega)]
      congr 1
      omega

/-! ## Claim theorems -/

/-- C1. For every transaction request by an account whose trailing-window
transaction count is at least the hard velocity threshold, `evaluate`
returns the hard-block verdict — a constant, so the verdict is
independent of every other rule outcome and carries no factor list (no
score is computed) — and `submit` blocks the transaction, auto-freezes
the account, and touches neither balance nor baseline. -/
theorem hard_velocity_hard_block (r : Request) (c : Context) (now d : ℤ) (s : Sys)
    (h : c.hardThreshold ≤ c.recentCount) :
    evaluate r c = hardBlockVerdict ∧
    hardBlockVerdict.factors = [] ∧
    (submit now d r c s).1.1.status = .blocked ∧
    (submit now d r c s).1.2.hardBlock = true ∧
    (submit now d r c s).2.account.status = .frozen ∧
    (submit now d r c s).2.account = freeze now d s.account ∧
    (submit now d r c s).2.account.balance = s.account.balance ∧
    (submit now d r c s).2.baseline = s.baseline := by
  have he : evaluate r c = hardBlockVerdict := evaluate_hard r c h
  refine ⟨he, rfl, ?_, ?_, ?_, ?_, ?_, ?_⟩ <;>
    simp [submit, he, hardBlockVerdict, freeze]

theorem hard_velocity_hard_block_witness :
    exCtxHard.hardThreshold ≤ exCtxHard.recentCount ∧
    evaluate exReq exCtxHard = hardBlockVerdict :=
  ⟨by decide,
   (hard_velocity_hard_block exReq exCtxHard 0 30 exSys (by decide)).1⟩

/-- C2. For every non-hard-blocked evaluation, `requiresConfirmation` is
true iff the clamped score exceeds 60 or some confirmation-required rule
(exceeds-limit, soft-velocity, impossible-travel) fired; and the client's
`handleSubmit` shows the confirmation modal exactly when the flag is
true. -/
theorem requires_confirmation_iff (r : Request) (c : Context)
    (h : c.recentCount < c.hardThreshold) :
    ((evaluate r c).requiresConfirmation = true ↔
      60 < (evaluate r c).score ∨
        ∃ ru ∈ (evaluate r c).factors, confRequired ru = true) ∧
    (∀ (fa : FraudAnalysisR) (s : ClientState),
        (handleSubmitClient fa s).showConfirmModal = fa.requires_confirmation) := by
  constructor
  · rw [evaluate_not_hard r c h]
    simp [List.any_eq_true]
  · intro fa s
    cases hfa : fa.requires_confirmation <;> simp [handleSubmitClient, hfa]

theorem requires_confirmation_iff_witness :
    exCtx.recentCount < exCtx.hardThreshold ∧
    (handleSubmitClient { anomaly_score := 100, requires_confirmation := true }
        exClient).showConfirmModal = true :=
  ⟨by decide,
   (requires_confirmation_iff exReq exCtx (by decide)).2
     { anomaly_score := 100, requires_confirmation := true } exClient⟩

/-- C3. For every verdict the risk level is the total function of the
clamped score: low iff ≤ 30, medium iff 31–60, high iff > 60; the score
is the clamped (to 100) sum of the fired rule weights. -/
theorem risk_level_total (r : Request) (c : Context) :
    (evaluate r c).level = riskLevel (evaluate r c).score ∧
    (evaluate r c).score ≤ 100 ∧
    (c.recentCount < c.hardThreshold →
      (evaluate r c).score = min (sumWeights (firedRules r c)) 100) ∧
    (∀ s : ℕ, (riskLevel s = .low ↔ s ≤ 30) ∧
              (riskLevel s = .medium ↔ 31 ≤ s ∧ s ≤ 60) ∧
              (riskLevel s = .high ↔ 60 < s)) := by
  refine ⟨?_, ?_, ?_, riskLevel_cases⟩
  · by_cases h : c.hardThreshold ≤ c.recentCount
    · rw [evaluate_hard r c h]
      simp [hardBlockVerdict, riskLevel]
    · rw [evaluate_not_hard r c (Nat.not_le.mp h)]
  · by_cases h : c.hardThreshold ≤ c.recentCount
    · rw [evaluate_hard r c h]
      norm_num [hardBlockVerdict]
    · rw [evaluate_not_hard r c (Nat.not_le.mp h)]
      exact Nat.min_le_right _ _
  · intro h
    rw [evaluate_not_hard r c h]

theorem risk_level_total_witness :
    (evaluate exReq exCtx).level = riskLevel (evaluate exReq exCtx).score :=
  (risk_level_total exReq exCtx).1

/-- C4. For every transaction already in a terminal state (Completed,
Blocked or Cancelled), any subsequent `confirm` or `onTimeout` call is a
no-op: it returns the existing terminal record and the whole engine
state — balance, freeze state and transaction store included — is
unchanged. -/
theorem terminal_idempotent (s : Sys) (id : ℕ) (b : Bool) (now d : ℤ) (t : Txn)
    (hid : s.txns id = some t)
    (hterm : t.status = .completed ∨ t.status = .blocked ∨ t.status = .cancelled) :
    confirm s id b = (.resolved t, s) ∧
    onTimeout now d s id = (.resolved t, s) := by
  obtain ⟨amt, st⟩ := t
  rcases hterm with h1 | h1 | h1 <;> simp only at h1 <;> subst h1 <;>
    simp [confirm, onTimeout, hid]

theorem terminal_idempotent_witness :
    exSys.txns 7 = some { amount := 50, status := .blocked } ∧
    confirm exSys 7 true = (.resolved { amount := 50, status := .blocked }, exSys) :=
  ⟨rfl,
   (terminal_idempotent exSys 7 true 0 30 { amount := 50, status := .blocked }
      rfl (Or.inr (Or.inl rfl))).1⟩

/-- C5. The confirmation flow started by the client resets the countdown
to 60; each elapsed second with the modal shown decrements it without
calling the timeout endpoint; after 60 ticks the countdown is 0, and a
tick at 0 with a pending transaction invokes the timeout endpoint; on
the engine side, timing out a pending transaction blocks it (never
completes it) and auto-freezes the account for the freeze duration. -/
theorem confirmation_timer (fa : FraudAnalysisR) (s : ClientState) (sys : Sys)
    (id : ℕ) (now d : ℤ) (t : Txn)
    (hfa : fa.requires_confirmation = true)
    (hid : sys.txns id = some t) (hp : t.status = .pending) :
    (handleSubmitClient fa s).countdown = 60 ∧
    iterTick 60 (handleSubmitClient fa s) =
      { showConfirmModal := true, countdown := 0, hasPending := true,
        transactionComplete := false } ∧
    (∀ cs : ClientState, cs.showConfirmModal = true → 0 < cs.countdown →
        (clientTick cs).1.countdown = cs.countdown - 1 ∧ (clientTick cs).2 = false) ∧
    (∀ cs : ClientState, cs.countdown = 0 → cs.hasPending = true →
        (clientTick cs).2 = true) ∧
    (onTimeout now d sys id).1 = .resolved { t with status := .blocked } ∧
    (onTimeout now d sys id).2.account = freeze now d sys.account ∧
    (onTimeout now d sys id).2.account.status = .frozen ∧
    (onTimeout now d sys id).2.txns id = some { t with status := .blocked } := by
  have hstart : handleSubmitClient fa s =
      { showConfirmModal := true, countdown := 60, hasPending := true,
        transactionComplete := false } := by
    simp [handleSubmitClient, hfa]
  obtain ⟨amt, st⟩ := t
  simp only at hp
  subst hp
  refine ⟨by rw [hstart], ?_, ?_, ?_, ?_, ?_, ?_, ?_⟩
  · rw [hstart]
    exact iterTick_run 60 60 le_rfl false
  · intro cs h1 h2
    constructor <;> simp [clientTick, h1, h2]
  · intro cs h1 h2
    simp [clientTick, h1, h2]
  · simp [onTimeout, hid]
  · simp [onTimeout, hid]
  · simp [onTimeout, hid, freeze]
  · simp [onTimeout, hid, putTxn]

theorem confirmation_timer_witness :
    ({ anomaly_score := 100, requires_confirmation := true } :
        FraudAnalysisR).requires_confirmation = true ∧
    exSys.txns 3 = some { amount := 20, status := .pending } ∧
    (handleSubmitClient { anomaly_score := 100, requires_confirmation := true }
        exClient).countdown = 60 :=
  ⟨rfl, rfl,
   (confirmation_timer { anomaly_score := 100, requires_confirmation := true }
      exClient exSys 3 0 30 { amount := 20, status := .pending }
      rfl rfl rfl).1⟩

/-- C6. `freeze` is monotone on the freeze expiry: it always moves the
account to Frozen; from no freeze it sets `freeze_until` to now+d; from
an existing freeze it takes the max of the old and the new expiry, so a
freeze whose new expiry is not later leaves `freeze_until` unchanged —
in particular a second, shorter freeze never shortens the one in force —
and only manual `unfreeze` forces Active. -/
theorem freeze_monotone (a : AccountState) (now₁ d₁ : ℤ) :
    (freeze now₁ d₁ a).status = .frozen ∧
    (a.freezeUntil = none → (freeze now₁ d₁ a).freezeUntil = some (now₁ + d₁)) ∧
    (∀ u, a.freezeUntil = some u →
        (freeze now₁ d₁ a).freezeUntil = some (max u (now₁ + d₁)) ∧
        (now₁ + d₁ ≤ u → (freeze now₁ d₁ a).freezeUntil = some u)) ∧
    (∀ now₂ d₂, now₂ + d₂ ≤ now₁ + d₁ →
        (freeze now₂ d₂ (freeze now₁ d₁ a)).freezeUntil =
          (freeze now₁ d₁ a).freezeUntil) ∧
    (unfreeze a).status = .active ∧ (unfreeze a).freezeUntil = none := by
  refine ⟨rfl, ?_, ?_, ?_, rfl, rfl⟩
  · intro h
    simp [freeze, h]
  · intro u h
    refine ⟨by simp [freeze, h], fun hle => by simp [freeze, h, max_eq_left hle]⟩
  · intro now₂ d₂ hle
    rcases ha : a.freezeUntil with _ | u <;>
      · simp only [freeze, ha]
        rw [max_eq_left]
        omega

theorem freeze_monotone_witness :
    (freeze 0 100 { balance := 0, status := .active, freezeUntil := none }).status
      = .frozen :=
  (freeze_monotone { balance := 0, status := .active, freezeUntil := none } 0 100).1

/-- C7. Evaluation with a missing baseline succeeds with the
high-amount-vs-baseline rule never firing, and such an evaluation can
only hard-block through the hard velocity check; any other failure to
load account context fails closed: `evaluateLoaded` on a missing context
returns the hard-block verdict, never approving. -/
theorem missing_baseline_fail_closed (r : Request) (c : Context)
    (hb : c.baseline = none) :
    RuleId.highAmountVsBaseline ∉ (evaluate r c).factors ∧
    ((evaluate r c).hardBlock = true → c.hardThreshold ≤ c.recentCount) ∧
    evaluateLoaded r none = hardBlockVerdict ∧
    (evaluateLoaded r none).hardBlock = true := by
  refine ⟨?_, ?_, rfl, rfl⟩
  · by_cases h : c.hardThreshold ≤ c.recentCount
    · rw [evaluate_hard r c h]
      simp [hardBlockVerdict]
    · rw [evaluate_not_hard r c (Nat.not_le.mp h)]
      simp only [firedRules, List.mem_filter]
      intro hmem
      simp [fires, hb] at hmem
  · by_cases h : c.hardThreshold ≤ c.recentCount
    · exact fun _ => h
    · rw [evaluate_not_hard r c (Nat.not_le.mp h)]
      simp

theorem missing_baseline_fail_closed_witness :
    exCtxHard.baseline = none ∧ evaluateLoaded exReq none = hardBlockVerdict :=
  ⟨rfl, (missing_baseline_fail_closed exReq exCtxHard rfl).2.2.1⟩

theorem foldl_updateBaseline_count (as : List ℚ) (b : Baseline) :
    (as.foldl updateBaseline b).count = b.count + as.length := by
  induction as generalizing b with
  | nil => simp
  | cons a t ih =>
      rw [List.foldl_cons, ih]
      simp [updateBaseline]
      omega

theorem foldl_updateBaseline_avg (as : List ℚ) (b : Baseline) :
    (as.foldl updateBaseline b).avg * ((as.foldl updateBaseline b).count : ℚ) =
      b.avg * (b.count : ℚ) + as.sum := by
  induction as generalizing b with
  | nil => simp
  | cons a t ih =>
      rw [List.foldl_cons, ih, List.sum_cons]
      have hne : ((b.count : ℚ) + 1) ≠ 0 := by positivity
      simp only [updateBaseline]
      push_cast
      field_simp
      ring

theorem foldl_updateBaseline_max_le (as : List ℚ) (b : Baseline) :
    b.maxHist ≤ (as.foldl updateBaseline b).maxHist ∧
    ∀ a ∈ as, a ≤ (as.foldl updateBaseline b).maxHist := by
  induction as generalizing b with
  | nil => simp
  | cons a t ih =>
      rw [List.foldl_cons]
      have h := ih (updateBaseline b a)
      have hba : b.maxHist ≤ (updateBaseline b a).maxHist := le_max_left _ _
      have haa : a ≤ (updateBaseline b a).maxHist := le_max_right _ _
      refine ⟨le_trans hba h.1, ?_⟩
      intro x hx
      rcases List.mem_cons.mp hx with hx | hx
      · subst hx
        exact le_trans haa h.1
      · exact h.2 x hx

theorem foldl_updateBaseline_max_mem (as : List ℚ) (b : Baseline) :
    (as.foldl updateBaseline b).maxHist = b.maxHist ∨
    (as.foldl updateBaseline b).maxHist ∈ as := by
  induction as generalizing b with
  | nil => left; rfl
  | cons a t ih =>
      rw [List.foldl_cons]
      rcases ih (updateBaseline b a) with h | h
      · rw [h]
        rcases max_choice b.maxHist a with hm | hm
        · left; rw [updateBaseline] at *; exact hm
        · right
          rw [updateBaseline] at *
          simp only [hm]
          exact List.mem_cons_self a t
      · right; exact List.mem_cons_of_mem a h

/-- C8. The baseline updater applies exactly the incremental formulas;
it runs on settlement to Completed (direct completion and
`confirm(true)`) and never on Blocked or Cancelled (`confirm(false)`,
timeout); and after folding in amounts a₁..aₙ starting from the empty
baseline, the sample count is n, the average is exactly the arithmetic
mean over ℚ, and `max_historical_amount` is the maximum (an upper bound
of the list and, for positive amounts, a member of it). -/
theorem baseline_updater (b : Baseline) (x : ℚ) (s : Sys) (id : ℕ) (now d : ℤ)
    (t : Txn) (as : List ℚ)
    (hid : s.txns id = some t) (hp : t.status = .pending)
    (ha : ∀ a ∈ as, 0 < a) :
    (updateBaseline b x).avg = b.avg + (x - b.avg) / ((b.count : ℚ) + 1) ∧
    (updateBaseline b x).maxHist = max b.maxHist x ∧
    (updateBaseline b x).count = b.count + 1 ∧
    (confirm s id true).2.baseline = updateBaseline s.baseline t.amount ∧
    (confirm s id false).2.baseline = s.baseline ∧
    (onTimeout now d s id).2.baseline = s.baseline ∧
    (∀ (r : Request) (c : Context),
      (evaluate r c).hardBlock = false → (evaluate r c).requiresConfirmation = false →
        (submit now d r c s).2.baseline = updateBaseline s.baseline r.amount) ∧
    (∀ (r : Request) (c : Context), (evaluate r c).hardBlock = true →
        (submit now d r c s).2.baseline = s.baseline) ∧
    (as.foldl updateBaseline emptyBaseline).count = as.length ∧
    (as.foldl updateBaseline emptyBaseline).avg * (as.length : ℚ) = as.sum ∧
    (as ≠ [] →
      (as.foldl updateBaseline emptyBaseline).avg = as.sum / (as.length : ℚ)) ∧
    (∀ a ∈ as, a ≤ (as.foldl updateBaseline emptyBaseline).maxHist) ∧
    (as ≠ [] → (as.foldl updateBaseline emptyBaseline).maxHist ∈ as) := by
  obtain ⟨amt, st⟩ := t
  simp only at hp
  subst hp
  have hcount : (as.foldl updateBaseline emptyBaseline).count = as.length := by
    rw [foldl_updateBaseline_count]
    simp [emptyBaseline]
  have havg : (as.foldl updateBaseline emptyBaseline).avg * (as.length : ℚ) = as.sum := by
    have := foldl_updateBaseline_avg as emptyBaseline
    rw [hcount] at this
    simpa [emptyBaseline] using this
  refine ⟨by simp [updateBaseline], rfl, rfl, by simp [confirm, hid],
    by simp [confirm, hid], by simp [onTimeout, hid], ?_, ?_, hcount, havg,
    ?_, (foldl_updateBaseline_max_le as emptyBaseline).2, ?_⟩
  · intro r c h1 h2
    simp [submit, h1, h2]
  · intro r c h1
    simp [submit, h1]
  · intro hne
    have hlen0 : as.length ≠ 0 := by simpa using hne
    have hlen : ((as.length : ℚ)) ≠ 0 := Nat.cast_ne_zero.mpr hlen0
    field_simp [hlen] at havg ⊢
    linarith [havg]
  · intro hne
    rcases foldl_updateBaseline_max_mem as emptyBaseline with h | h
    · exfalso
      obtain ⟨a, hta⟩ := List.exists_mem_of_ne_nil as hne
      have h1 := (foldl_updateBaseline_max_le as emptyBaseline).2 a hta
      have h2 := ha a hta
      rw [h] at h1
      simp [emptyBaseline] at h1
      linarith
    · exact h

theorem baseline_updater_witness :
    exSys.txns 3 = some { amount := 20, status := .pending } ∧
    (∀ a ∈ ([3, 5] : List ℚ), 0 < a) ∧
    (([3, 5] : List ℚ).foldl updateBaseline emptyBaseline).count = 2 :=
  ⟨rfl, by norm_num,
   (baseline_updater emptyBaseline 1 exSys 3 0 30
      { amount := 20, status := .pending } [3, 5] rfl rfl
      (by norm_num)).2.2.2.2.2.2.2.2.1⟩

/-- C9. `evaluate` is a pure, deterministic function of the request and
the account context: run against any ambient engine state it returns
that state untouched, and the verdict is the same whatever the ambient
state is. -/
theorem evaluate_pure (r : Request) (c : Context) (s s' : Sys) :
    (evaluateRun r c s).2 = s ∧
    (evaluateRun r c s).1 = (evaluateRun r c s').1 ∧
    (evaluateRun r c s).1 = evaluate r c :=
  ⟨rfl, rfl, rfl⟩

/-- C10. The freeze-countdown display is clamped at zero: for a null
expiry `getTimeRemaining` returns null; otherwise it returns exactly
max(0, ⌈(freeze_until − now)/60000⌉), so an expiry in the past yields 0
and the result is never negative. -/
theorem getTimeRemaining_clamped (now : ℤ) :
    getTimeRemaining none now = none ∧
    (∀ u : ℤ, getTimeRemaining (some u) now =
        some (max 0 ⌈(((u - now : ℤ)) : ℚ) / 60000⌉)) ∧
    (∀ u : ℤ, u ≤ now → getTimeRemaining (some u) now = some 0) ∧
    (∀ u m : ℤ, getTimeRemaining (some u) now = some m → 0 ≤ m) := by
  refine ⟨rfl, ?_, ?_, ?_⟩
  · intro u
    simp only [getTimeRemaining]
    split_ifs with h
    · rw [max_eq_right h.le]
    · rw [max_eq_left (le_of_not_lt h)]
  · intro u hu
    have hq : (((u - now : ℤ)) : ℚ) / 60000 ≤ 0 := by
      apply div_nonpos_of_nonpos_of_nonneg
      · exact_mod_cast sub_nonpos.mpr hu
      · norm_num
    have hc : ⌈(((u - now : ℤ)) : ℚ) / 60000⌉ ≤ 0 := by
      simpa using Int.ceil_le.mpr hq
    simp only [getTimeRemaining]
    rw [if_neg (not_lt.mpr hc)]
  · intro u m hm
    simp only [getTimeRemaining] at hm
    split_ifs at hm with h
    · injection hm with hmm
      omega
    · injection hm with hmm
      omega

theorem getTimeRemaining_clamped_witness :
    getTimeRemaining none 0 = none ∧
    ((-5 : ℤ) ≤ 0 ∧ getTimeRemaining (some (-5)) 0 = some 0) :=
  ⟨(getTimeRemaining_clamped 0).1,
   by norm_num, (getTimeRemaining_clamped 0).2.2.1 (-5) (by norm_num)⟩

end FraudWallet
